import Mathlib

/-!
Verification of the queue/playback engine of the `musik-si-alan` repository
(`src/musicnowerror.py` — the newer engine variant — with `src/musicold.py`
consulted where a claim cites it).  The Python code is shallowly embedded:
dictionaries become association lists, `async` effects become explicit state
passing, external collaborators (the yt-dlp resolver, the HTTP fetcher, the
ffmpeg stream constructor, the voice player) become function/value parameters,
and Python truthiness on optional strings is modelled explicitly.
-/

namespace MusikSiAlan

/-! ## Python-semantics helpers -/

/-- Python `needle in haystack` on strings, over explicit char lists:
`listContains hay needle = true` iff `needle` occurs contiguously in `hay`. -/
def listContains (hay needle : List Char) : Bool :=
  needle.isPrefixOf hay ||
    match hay with
    | [] => false
    | _ :: t => listContains t needle

/-- Python `s.split(sep)` for a single-character separator (keeps empty pieces,
always returns at least one piece). -/
def pySplit (sep : Char) : List Char → List (List Char)
  | [] => [[]]
  | c :: rest =>
    if c = sep then [] :: pySplit sep rest
    else
      match pySplit sep rest with
      | [] => [[c]]
      | g :: gs => (c :: g) :: gs

/-- Python `s.lower()`, over the char list (per-character lowercasing). -/
def pyLower (s : String) : List Char := s.data.map Char.toLower

/-- Python truthiness of an optional string (`None` and `""` are falsy). -/
def optTruthy : Option String → Bool
  | none => false
  | some s => s ≠ ""

/-- Python `a or b` on two optional strings (falsy `a` falls through to `b`). -/
def pyOrS (a b : Option String) : Option String :=
  if optTruthy a then a else b

/-! ## Association lists (Python dicts) -/

/-- Dictionary lookup (`d.get(k)`). -/
def alookup {α β : Type} [DecidableEq α] : List (α × β) → α → Option β
  | [], _ => none
  | (k, v) :: rest, a => if k = a then some v else alookup rest a

/-- Dictionary write (`d[k] = v`): replaces the binding if present,
otherwise appends it. -/
def aupdate {α β : Type} [DecidableEq α] : List (α × β) → α → β → List (α × β)
  | [], a, b => [(a, b)]
  | (k, v) :: rest, a, b =>
    if k = a then (k, b) :: rest else (k, v) :: aupdate rest a b

theorem alookup_aupdate_self {α β : Type} [DecidableEq α]
    (l : List (α × β)) (a : α) (b : β) :
    alookup (aupdate l a b) a = some b := by
  induction l with
  | nil => simp [aupdate, alookup]
  | cons kv rest ih =>
    obtain ⟨k, v⟩ := kv
    by_cases h : k = a <;> simp [aupdate, alookup, h, ih]

theorem alookup_aupdate_ne {α β : Type} [DecidableEq α]
    (l : List (α × β)) (a a' : α) (b : β) (h : a ≠ a') :
    alookup (aupdate l a b) a' = alookup l a' := by
  induction l with
  | nil => simp [aupdate, alookup, h]
  | cons kv rest ih =>
    obtain ⟨k, v⟩ := kv
    by_cases hk : k = a
    · subst hk
      simp [aupdate, alookup, h]
    · simp [aupdate, alookup, hk, ih]

theorem alookup_aupdate_isSome {α β : Type} [DecidableEq α]
    (l : List (α × β)) (a a' : α) (b : β)
    (h : (alookup l a').isSome) :
    (alookup (aupdate l a b) a').isSome := by
  by_cases hk : a = a'
  · subst hk
    simp [alookup_aupdate_self]
  · rwa [alookup_aupdate_ne l a a' b hk]

/-! ## Data model

`MusicCog.__init__` (musicnowerror.py:55-64) owns four dictionaries:
`queues` and `pending_playlists` keyed by guild id, `title_cache` and
`audio_cache` keyed by the track reference (URL) alone. -/

/-- A track reference: the URL string used as the queue and cache key. -/
abbrev Ref := String

/-- A title-cache record (`{'title': ..., 'duration': ..., 'webpage_url': ...}`;
the `webpage_url` key is only present on some writes). -/
structure TMeta where
  title : String
  duration : Nat
  webpageUrl : Option String := none
deriving DecidableEq

/-- An audio stream handle (the `discord.FFmpegPCMAudio`/transformer object),
abstracted to the URL it was constructed from. -/
structure StreamSource where
  streamUrl : String
deriving DecidableEq

/-- One yt-dlp format record, with the fields the code reads. -/
structure Format where
  acodec : Option String
  abr : Option Nat
  formatUrl : String
deriving DecidableEq

/-- A single-track yt-dlp info record, with the fields `_preload_song` reads. -/
structure Info where
  title : Option String
  duration : Option Nat
  infoUrl : Option String
  formats : List Format
deriving DecidableEq

/-- An audio-cache record (`{'source': ..., 'info': ..., 'created_at': ...}`). -/
structure AudioEntry where
  source : StreamSource
  info : Info
  createdAt : Nat
deriving DecidableEq

/-- A playlist entry as read by `play` and `process_pending_playlists`. -/
structure PEntry where
  webpageUrl : Option String
  entryUrl : Option String
  title : Option String
  duration : Option Nat
deriving DecidableEq

/-- A playlist-resolution info record: `entries` present or absent
(`'entries' in info`), entries may be `None`. -/
structure PInfo where
  entries : Option (List (Option PEntry))
deriving DecidableEq

/-- The mutable state of `MusicCog` (musicnowerror.py:58-61): `queues` and
`pending` are keyed by guild id; `titleCache` and `audioCache` by `Ref` only. -/
structure CogState where
  queues : List (Nat × List Ref)
  titleCache : List (Ref × TMeta)
  audioCache : List (Ref × AudioEntry)
  pending : List (Nat × List String)
deriving DecidableEq

/-! ## Per-guild queue store (claim C5 model)

`get_queue` (musicnowerror.py:66-69) lazily creates the per-guild list;
`queue.append(url)` appends at the tail; `queue.pop(0)` consumes the head
(play_next, musicnowerror.py:302/332). -/

/-- Model of `get_queue(guild_id)`: the guild's queue, lazily `[]`. -/
def getQueue (st : CogState) (g : Nat) : List Ref :=
  (alookup st.queues g).getD []

/-- Model of `self.get_queue(g).append(url)`. -/
def appendTrack (st : CogState) (g : Nat) (u : Ref) : CogState :=
  { st with queues := aupdate st.queues g (getQueue st g ++ [u]) }

/-- Model of `queue.pop(0)` on the guild's queue: returns the head (if any) and the
updated state. -/
def popHead (st : CogState) (g : Nat) : Option Ref × CogState :=
  match getQueue st g with
  | [] => (none, st)
  | h :: t => (some h, { st with queues := aupdate st.queues g t })

/-- Pop the guild's queue `n` times, collecting the returned heads in order. -/
def popAll (st : CogState) (g : Nat) : Nat → List Ref
  | 0 => []
  | n + 1 =>
    match popHead st g with
    | (none, _) => []
    | (some r, st') => r :: popAll st' g n

theorem getQueue_appendTrack_self (st : CogState) (g : Nat) (u : Ref) :
    getQueue (appendTrack st g u) g = getQueue st g ++ [u] := by
  simp [getQueue, appendTrack, alookup_aupdate_self]

theorem getQueue_appendTrack_ne (st : CogState) (g g' : Nat) (u : Ref)
    (h : g ≠ g') :
    getQueue (appendTrack st g u) g' = getQueue st g' := by
  simp [getQueue, appendTrack, alookup_aupdate_ne st.queues g g' _ h]

theorem getQueue_foldl_appendTrack (st : CogState) (g : Nat) (refs : List Ref) :
    getQueue (refs.foldl (fun s r => appendTrack s g r) st) g
      = getQueue st g ++ refs := by
  induction refs generalizing st with
  | nil => simp
  | cons r rest ih =>
    simp [List.foldl_cons, ih, getQueue_appendTrack_self]

theorem popAll_of_getQueue (st : CogState) (g : Nat) (l : List Ref)
    (h : getQueue st g = l) :
    popAll st g l.length = l := by
  induction l generalizing st with
  | nil => simp [popAll]
  | cons r rest ih =>
    have hpop : popHead st g
        = (some r, { st with queues := aupdate st.queues g rest }) := by
      simp [popHead, h]
    have hq : getQueue { st with queues := aupdate st.queues g rest } g
        = rest := by
      simp [getQueue, alookup_aupdate_self]
    simp [popAll, hpop, ih _ hq]

/-- C5: for every sequence of `append` calls on a guild queue that starts
empty, popping the head repeatedly returns exactly the appended references in
append order (FIFO: append at tail, consume at head). -/
theorem queue_fifo (st : CogState) (g : Nat) (refs : List Ref)
    (hempty : getQueue st g = []) :
    popAll (refs.foldl (fun s r => appendTrack s g r) st) g refs.length
      = refs := by
  have h : getQueue (refs.foldl (fun s r => appendTrack s g r) st) g = refs := by
    rw [getQueue_foldl_appendTrack, hempty]
    simp
  simpa using popAll_of_getQueue _ g refs h

/-- Witness for C5 at a concrete three-element append sequence. -/
theorem queue_fifo_witness :
    popAll ((["a", "b", "c"] : List Ref).foldl
        (fun s r => appendTrack s 0 r) ⟨[], [], [], []⟩) 0 3
      = ["a", "b", "c"] := by
  have := queue_fifo ⟨[], [], [], []⟩ 0 ["a", "b", "c"] (by simp [getQueue, alookup])
  simpa using this

/-! ## Preloader (`_preload_song`, musicnowerror.py:211-276)

The yt-dlp extraction is the external resolver boundary; its outcome for the
given reference is passed as `resolve` (`.error` = the extractor raised,
`.ok none` = it returned a falsy info, `.ok (some info)` = success).  The
ffmpeg stream construction (`discord.FFmpegPCMAudio` + volume transformer) is
the external `mkSource` boundary (`.error` = construction raised).  The third
component of the result counts resolver invocations (`extract_info` calls). -/

/-- The best-format scan (musicnowerror.py:239-245): first format with
`acodec != 'none'` and strictly highest `int(abr or 0)` wins. -/
def bestFormat (fs : List Format) : Option Format :=
  fs.foldl
    (fun best f =>
      if f.acodec ≠ some "none" then
        match best with
        | none => some f
        | some b => if f.abr.getD 0 > b.abr.getD 0 then some f else best
      else best)
    none

/-- The audio-URL selection of `_preload_song` (musicnowerror.py:237-245):
`info.get('url')`, falling back to the best audio format's URL when falsy. -/
def selectAudioUrl (info : Info) : Option String :=
  if optTruthy info.infoUrl then info.infoUrl
  else if info.formats ≠ [] then
    match bestFormat info.formats with
    | some b => some b.formatUrl
    | none => info.infoUrl
  else info.infoUrl

/-- Model of `_preload_song(url)` (musicnowerror.py:211-276).  Returns the updated
state, the returned audio entry (`None` ↦ `none`), and the number of resolver
invocations made. -/
def preloadSong (resolve : Except String (Option Info))
    (mkSource : String → Except String StreamSource) (now : Nat)
    (st : CogState) (url : Ref) : CogState × Option AudioEntry × Nat :=
  match alookup st.audioCache url with
  | some e => (st, some e, 0)
  | none =>
    match resolve with
    | .error _ => (st, none, 1)
    | .ok none => (st, none, 1)
    | .ok (some info) =>
      let st1 := { st with
        titleCache := aupdate st.titleCache url
          ⟨info.title.getD "Unknown", info.duration.getD 0, none⟩ }
      let audioUrl := selectAudioUrl info
      if optTruthy audioUrl then
        match mkSource (audioUrl.getD "") with
        | .error _ => (st1, none, 1)
        | .ok src =>
          let entry : AudioEntry := ⟨src, info, now⟩
          ({ st1 with audioCache := aupdate st1.audioCache url entry },
            some entry, 1)
      else (st1, none, 1)

/-- C4: preloading a reference already present in the audio cache returns
exactly the cached entry, leaves the whole state unchanged, and performs no
resolver invocation. -/
theorem preload_idempotent (resolve : Except String (Option Info))
    (mkSource : String → Except String StreamSource) (now : Nat)
    (st : CogState) (url : Ref) (e : AudioEntry)
    (hcached : alookup st.audioCache url = some e) :
    preloadSong resolve mkSource now st url = (st, some e, 0) := by
  simp [preloadSong, hcached]

/-- Witness for C4 at a concrete cached state. -/
theorem preload_idempotent_witness :
    preloadSong (.error "unreachable") (fun u => .ok ⟨u⟩) 7
        ⟨[], [], [("u", ⟨⟨"s"⟩, ⟨some "T", some 9, some "s", []⟩, 1⟩)], []⟩ "u"
      = (⟨[], [], [("u", ⟨⟨"s"⟩, ⟨some "T", some 9, some "s", []⟩, 1⟩)], []⟩,
          some ⟨⟨"s"⟩, ⟨some "T", some 9, some "s", []⟩, 1⟩, 0) :=
  preload_idempotent (.error "unreachable") (fun u => .ok ⟨u⟩) 7
    ⟨[], [], [("u", ⟨⟨"s"⟩, ⟨some "T", some 9, some "s", []⟩, 1⟩)], []⟩ "u"
    ⟨⟨"s"⟩, ⟨some "T", some 9, some "s", []⟩, 1⟩ (by simp [alookup])

theorem preload_none_audioCache (resolve : Except String (Option Info))
    (mkSource : String → Except String StreamSource) (now : Nat)
    (st : CogState) (url : Ref)
    (h : (preloadSong resolve mkSource now st url).2.1 = none) :
    (preloadSong resolve mkSource now st url).1.audioCache = st.audioCache := by
  rcases hC : alookup st.audioCache url with _ | e
  · rcases resolve with msg | oinfo
    · simp [preloadSong, hC]
    · rcases oinfo with _ | info
      · simp [preloadSong, hC]
      · by_cases hA : optTruthy (selectAudioUrl info)
        · rcases hM : mkSource ((selectAudioUrl info).getD "") with msg | src
          · simp [preloadSong, hC, hA, hM]
          · simp [preloadSong, hC, hA, hM] at h
        · simp [preloadSong, hC, hA]
  · simp [preloadSong, hC]

theorem preload_new_entry_constructed (resolve : Except String (Option Info))
    (mkSource : String → Except String StreamSource) (now : Nat)
    (st : CogState) (url : Ref)
    (h : (preloadSong resolve mkSource now st url).1.audioCache
          ≠ st.audioCache) :
    ∃ info src,
      resolve = .ok (some info)
      ∧ mkSource ((selectAudioUrl info).getD "") = .ok src
      ∧ (preloadSong resolve mkSource now st url).2.1
          = some ⟨src, info, now⟩ := by
  rcases hC : alookup st.audioCache url with _ | e
  · rcases resolve with msg | oinfo
    · simp [preloadSong, hC] at h
    · rcases oinfo with _ | info
      · simp [preloadSong, hC] at h
      · by_cases hA : optTruthy (selectAudioUrl info)
        · rcases hM : mkSource ((selectAudioUrl info).getD "") with msg | src
          · simp [preloadSong, hC, hA, hM] at h
          · exact ⟨info, src, rfl, hM, by simp [preloadSong, hC, hA, hM]⟩
        · simp [preloadSong, hC, hA] at h
  · simp [preloadSong, hC] at h

theorem preload_title_updated (resolve : Except String (Option Info))
    (mkSource : String → Except String StreamSource) (now : Nat)
    (st : CogState) (url : Ref) (info : Info)
    (hres : resolve = .ok (some info))
    (hnc : alookup st.audioCache url = none) :
    alookup (preloadSong resolve mkSource now st url).1.titleCache url
      = some ⟨info.title.getD "Unknown", info.duration.getD 0, none⟩ := by
  subst hres
  by_cases hA : optTruthy (selectAudioUrl info)
  · rcases hM : mkSource ((selectAudioUrl info).getD "") with msg | src
    · simp [preloadSong, hnc, hA, hM, alookup_aupdate_self]
    · simp [preloadSong, hnc, hA, hM, alookup_aupdate_self]
  · simp [preloadSong, hnc, hA, alookup_aupdate_self]

/-- C10: whenever `_preload_song` returns `None` the audio cache is left
unchanged; a new audio-cache entry exists only when the resolver succeeded
and the stream source was fully constructed (and the returned entry holds
exactly that constructed source); yet on every successful resolution of an
uncached reference the title cache is updated with the resolved title and
duration — even along the paths that then return `None`. -/
theorem preload_failure_frame (resolve : Except String (Option Info))
    (mkSource : String → Except String StreamSource) (now : Nat)
    (st : CogState) (url : Ref) :
    ((preloadSong resolve mkSource now st url).2.1 = none →
      (preloadSong resolve mkSource now st url).1.audioCache = st.audioCache)
    ∧ ((preloadSong resolve mkSource now st url).1.audioCache
          ≠ st.audioCache →
        ∃ info src,
          resolve = .ok (some info)
          ∧ mkSource ((selectAudioUrl info).getD "") = .ok src
          ∧ (preloadSong resolve mkSource now st url).2.1
              = some ⟨src, info, now⟩)
    ∧ (∀ info, resolve = .ok (some info) →
        alookup st.audioCache url = none →
        alookup (preloadSong resolve mkSource now st url).1.titleCache url
          = some ⟨info.title.getD "Unknown", info.duration.getD 0, none⟩) :=
  ⟨preload_none_audioCache resolve mkSource now st url,
   preload_new_entry_constructed resolve mkSource now st url,
   fun info hres hnc =>
     preload_title_updated resolve mkSource now st url info hres hnc⟩

/-- Witness for C10: a concrete run whose resolution succeeds but yields no
usable audio URL returns `none`, leaves the audio cache unchanged, and still
writes the resolved title and duration to the title cache. -/
theorem preload_failure_frame_witness :
    ((preloadSong (.ok (some ⟨some "T", some 9, none, []⟩)) (fun u => .ok ⟨u⟩) 7
        ⟨[], [], [], []⟩ "u").1.audioCache = ([] : List (Ref × AudioEntry)))
    ∧ (alookup (preloadSong (.ok (some ⟨some "T", some 9, none, []⟩))
        (fun u => .ok ⟨u⟩) 7 ⟨[], [], [], []⟩ "u").1.titleCache "u"
          = some ⟨"T", 9, none⟩) :=
  ⟨(preload_failure_frame (.ok (some ⟨some "T", some 9, none, []⟩))
      (fun u => .ok ⟨u⟩) 7 ⟨[], [], [], []⟩ "u").1 (by rfl),
   (preload_failure_frame (.ok (some ⟨some "T", some 9, none, []⟩))
      (fun u => .ok ⟨u⟩) 7 ⟨[], [], [], []⟩ "u").2.2
     ⟨some "T", some 9, none, []⟩ rfl (by rfl)⟩

/-! ## Playback sequencer (`play_next`, musicnowerror.py:278-343)

The voice connection is assumed active and the external player accepts every
constructed source (the claim under study concerns resolution failure only).
The preload behaviour is abstracted by `pf : Ref → Option AudioEntry`, the
outcome of `_preload_song` for each reference; `ac` is the audio cache read
by `self.audio_cache.get(url)` before the retry loop.  The third result
component is the trace of references passed to `_preload_song`, in call
order. -/

/-- Channel notifications sent by `play_next`. -/
inductive Event where
  | queueFinished
  | failedSkipping (url : Ref)
  | nowPlaying (title : String)
deriving DecidableEq

/-- The bounded retry loop of `play_next` (musicnowerror.py:291-335) on one
head: `cached` is the value of `cached_data` entering the iteration, the
`Nat` argument is the number of remaining attempts (`max_retries -
retry_count`, initially 3).  Returns the entry obtained (if any) and the
trace of preload calls made. -/
def retryLoop (pf : Ref → Option AudioEntry) (url : Ref) :
    Option AudioEntry → Nat → Option AudioEntry × List Ref
  | _, 0 => (none, [])
  | some e, _ + 1 => (some e, [])
  | none, n + 1 =>
    match pf url with
    | some e => (some e, [url])
    | none =>
      match retryLoop pf url none n with
      | (r, t) => (r, url :: t)

/-- Model of `play_next(guild, channel)` restricted to queue/notification behaviour:
empty queue emits "Queue finished!"; otherwise the head is retried (at most 3
attempts) and is popped only on success (musicnowerror.py:302); after 3
failed attempts the head is dropped, the failure is notified, and the
function recurses on the remaining queue (musicnowerror.py:329-334).
Returns the final queue, the notification list, and the trace of references
the retry loops passed to `_preload_song` (the opportunistic
`preload_next_tracks` scheduled on success scans only references still in
the queue, so it never touches a dropped head and is left out of the
trace). -/
def playNext (pf : Ref → Option AudioEntry) (ac : List (Ref × AudioEntry)) :
    List Ref → List Ref × List Event × List Ref
  | [] => ([], [.queueFinished], [])
  | url :: rest =>
    match retryLoop pf url (alookup ac url) 3 with
    | (some e, t) => (rest, [.nowPlaying (e.info.title.getD "Unknown")], t)
    | (none, t) =>
      match playNext pf ac rest with
      | (q, evs, t2) => (q, .failedSkipping url :: evs, t ++ t2)

theorem playNext_queue_sublist (pf : Ref → Option AudioEntry)
    (ac : List (Ref × AudioEntry)) (q : List Ref) :
    (playNext pf ac q).1.Sublist q := by
  induction q with
  | nil => simp [playNext]
  | cons url rest ih =>
    rcases hr : retryLoop pf url (alookup ac url) 3 with ⟨r, t⟩
    rcases r with _ | e
    · rcases hp : playNext pf ac rest with ⟨q', evs, t2⟩
      have : (playNext pf ac (url :: rest)).1 = q' := by
        simp [playNext, hr, hp]
      rw [this]
      have hq : q' = (playNext pf ac rest).1 := by rw [hp]
      exact (hq ▸ ih).cons url
    · have : (playNext pf ac (url :: rest)).1 = rest := by
        simp [playNext, hr]
      rw [this]
      exact (List.Sublist.refl rest).cons url

theorem retryLoop_trace_mem (pf : Ref → Option AudioEntry) (url : Ref)
    (c : Option AudioEntry) (n : Nat) :
    ∀ u ∈ (retryLoop pf url c n).2, u = url := by
  induction n generalizing c with
  | zero => simp [retryLoop]
  | succ n ih =>
    rcases c with _ | e
    · rcases hp : pf url with _ | e
      · rcases hr : retryLoop pf url none n with ⟨r, t⟩
        intro u hu
        simp [retryLoop, hp, hr] at hu
        rcases hu with hu | hu
        · exact hu
        · exact ih none u (by simp [hr, hu])
      · simp [retryLoop, hp]
    · simp [retryLoop]

theorem playNext_trace_mem (pf : Ref → Option AudioEntry)
    (ac : List (Ref × AudioEntry)) (q : List Ref) :
    ∀ u ∈ (playNext pf ac q).2.2, u ∈ q := by
  induction q with
  | nil => simp [playNext]
  | cons url rest ih =>
    rcases hr : retryLoop pf url (alookup ac url) 3 with ⟨r, t⟩
    rcases r with _ | e
    · rcases hp : playNext pf ac rest with ⟨q', evs, t2⟩
      intro u hu
      have hu' : u ∈ t ++ t2 := by
        simpa [playNext, hr, hp] using hu
      rcases List.mem_append.mp hu' with h | h
      · have := retryLoop_trace_mem pf url (alookup ac url) 3 u (by simp [hr, h])
        simp [this]
      · have := ih u (by simp [hp, h])
        simp [this]
    · intro u hu
      have hu' : u ∈ t := by
        simpa [playNext, hr] using hu
      have := retryLoop_trace_mem pf url (alookup ac url) 3 u (by simp [hr, hu'])
      simp [this]

/-- C1: for a queue head that is uncached and whose every preload attempt
yields `none`, `play_next` invokes the preloader on that head exactly 3 times
(the head is popped only on success, so it stays in the queue throughout the
attempts), then drops exactly that head, sends the failure notification, and
continues as `play_next` on the remaining queue; if the reference does not
occur later in the queue it is never preloaded again and never reappears in
the resulting queue. -/
theorem play_next_retry_drop (pf : Ref → Option AudioEntry)
    (ac : List (Ref × AudioEntry)) (url : Ref) (rest : List Ref)
    (hfail : pf url = none) (hnc : alookup ac url = none) :
    playNext pf ac (url :: rest)
      = ((playNext pf ac rest).1,
         .failedSkipping url :: (playNext pf ac rest).2.1,
         url :: url :: url :: (playNext pf ac rest).2.2)
    ∧ (playNext pf ac (url :: rest)).1.Sublist rest
    ∧ (url ∉ rest →
        ((playNext pf ac (url :: rest)).2.2.count url = 3
          ∧ url ∉ (playNext pf ac (url :: rest)).1)) := by
  have hloop : retryLoop pf url (alookup ac url) 3 = (none, [url, url, url]) := by
    rw [hnc]
    simp [retryLoop, hfail]
  have hmain : playNext pf ac (url :: rest)
      = ((playNext pf ac rest).1,
         .failedSkipping url :: (playNext pf ac rest).2.1,
         url :: url :: url :: (playNext pf ac rest).2.2) := by
    rcases hp : playNext pf ac rest with ⟨q', evs, t2⟩
    simp [playNext, hloop, hp]
  refine ⟨hmain, ?_, ?_⟩
  · have := playNext_queue_sublist pf ac (url :: rest)
    rw [hmain] at this ⊢
    exact (playNext_queue_sublist pf ac rest)
  · intro hnr
    constructor
    · rw [hmain]
      have hzero : (playNext pf ac rest).2.2.count url = 0 := by
        rw [List.count_eq_zero]
        intro hmem
        exact hnr (playNext_trace_mem pf ac rest url hmem)
      simp [List.count_cons, hzero]
    · rw [hmain]
      intro hmem
      exact hnr (List.Sublist.mem hmem (playNext_queue_sublist pf ac rest))

/-- Witness for C1: a two-element queue whose head never resolves. -/
theorem play_next_retry_drop_witness :
    playNext (fun _ => none) [] ["a", "b"]
      = ([], [.failedSkipping "a", .failedSkipping "b", .queueFinished],
         ["a", "a", "a", "b", "b", "b"])
    ∧ (playNext (fun _ => none) [] ["a", "b"]).2.2.count "a" = 3 := by
  have h := play_next_retry_drop (fun _ => none) [] "a" ["b"]
    (by rfl) (by rfl)
  refine ⟨?_, (h.2.2 (by simp)).1⟩
  rw [h.1]
  have h2 := play_next_retry_drop (fun _ => none) [] "b" []
    (by rfl) (by rfl)
  rw [h2.1]
  simp [playNext]

/-! ## Playlist expansion (`play` playlist branch, musicnowerror.py:480-503,
and `process_pending_playlists`, musicnowerror.py:71-100)

The expansion-time resolver (`self.ytdl.extract_info(playlist_url, ...)`) is
the `resolve` parameter (`.error msg` = it raised, `.ok none` = falsy info,
`.ok (some pinfo)` = an info whose `entries` key may be absent). -/

/-- Python `entry.get('webpage_url') or entry.get('url')` when truthy
(the validity test `entry and (...)` of musicnowerror.py:85). -/
def entryUrlT (e : PEntry) : Option String :=
  let v := pyOrS e.webpageUrl e.entryUrl
  if optTruthy v then v else none

/-- The references a playlist-entry list contributes: each non-`None` entry
with a truthy `webpage_url`-or-`url`. -/
def validUrls (es : List (Option PEntry)) : List Ref :=
  es.filterMap (fun oe => oe.bind entryUrlT)

/-- The per-entry loop body of `process_pending_playlists`
(musicnowerror.py:84-94): cache the entry's metadata, append its reference to
the guild queue, and schedule a preload when the queue length (after the
append) is at most 3.  Returns the updated state and the references whose
preload was scheduled, in order. -/
def expandEntries (g : Nat) : List (Option PEntry) → CogState →
    CogState × List Ref
  | [], st => (st, [])
  | oe :: rest, st =>
    match oe with
    | none => expandEntries g rest st
    | some e =>
      match entryUrlT e with
      | none => expandEntries g rest st
      | some u =>
        let st1 : CogState :=
          { st with
            titleCache := aupdate st.titleCache u
              ⟨e.title.getD "Unknown", e.duration.getD 0, some u⟩,
            queues := aupdate st.queues g (getQueue st g ++ [u]) }
        let pl : List Ref := if (getQueue st1 g).length ≤ 3 then [u] else []
        match expandEntries g rest st1 with
        | (st2, ps) => (st2, pl ++ ps)

/-- The per-playlist loop of `process_pending_playlists`
(musicnowerror.py:75-98): resolve each pending playlist query; on an
exception send an error notice and continue with the remaining playlists; on
success expand `info['entries'][1:]`.  Returns the state, the scheduled
preloads, and the error notices. -/
def drainPlaylists (resolve : String → Except String (Option PInfo))
    (g : Nat) : List String → CogState → CogState × List Ref × List String
  | [], st => (st, [], [])
  | p :: rest, st =>
    match resolve p with
    | .error msg =>
      match drainPlaylists resolve g rest st with
      | (st', ps, es) => (st', ps, ("Error processing playlist: " ++ msg) :: es)
    | .ok none => drainPlaylists resolve g rest st
    | .ok (some pinfo) =>
      match pinfo.entries with
      | none => drainPlaylists resolve g rest st
      | some entries =>
        match expandEntries g (entries.drop 1) st with
        | (st1, ps1) =>
          match drainPlaylists resolve g rest st1 with
          | (st2, ps2, es) => (st2, ps1 ++ ps2, es)

/-- Model of `process_pending_playlists(guild_id, channel)` (musicnowerror.py:71-100):
no-op when the guild has no pending record; otherwise drains every pending
playlist and finally resets the guild's pending list to `[]`. -/
def processPendingPlaylists (resolve : String → Except String (Option PInfo))
    (g : Nat) (st : CogState) : CogState × List Ref × List String :=
  match alookup st.pending g with
  | none => (st, [], [])
  | some pls =>
    match drainPlaylists resolve g pls st with
    | (st', ps, es) =>
      ({ st' with pending := aupdate st'.pending g [] }, ps, es)

/-- Python `next((e for e in info['entries'] if e and (...)), None)`
(musicnowerror.py:487): the first resolvable playlist entry. -/
def firstValidEntry (es : List (Option PEntry)) : Option PEntry :=
  es.findSome? (fun oe =>
    oe.bind (fun e => if (entryUrlT e).isSome then some e else none))

/-- The playlist branch of `play` (musicnowerror.py:480-503): register the
query in the guild's pending set, then append only the first resolvable entry
(with its metadata) to the queue.  Returns the updated state and whether the
background expansion task was scheduled (`create_task`, line 501). -/
def playPlaylistEager (g : Nat) (query : String)
    (entries : List (Option PEntry)) (st : CogState) : CogState × Bool :=
  let st0 : CogState :=
    if alookup st.pending g = none then
      { st with pending := aupdate st.pending g [] }
    else st
  let st1 : CogState :=
    { st0 with
      pending := aupdate st0.pending g
        ((alookup st0.pending g).getD [] ++ [query]) }
  if entries ≠ [] then
    match firstValidEntry entries with
    | some e =>
      match entryUrlT e with
      | some u =>
        let st2 : CogState :=
          { st1 with
            queues := aupdate st1.queues g (getQueue st1 g ++ [u]),
            titleCache := aupdate st1.titleCache u
              ⟨e.title.getD "Unknown", e.duration.getD 0, some u⟩ }
        (st2, true)
      | none => (st1, false)
    | none => (st1, false)
  else (st1, false)

theorem expandEntries_queue (g : Nat) (es : List (Option PEntry))
    (st : CogState) :
    getQueue (expandEntries g es st).1 g = getQueue st g ++ validUrls es := by
  induction es generalizing st with
  | nil => simp [expandEntries, validUrls]
  | cons oe rest ih =>
    rcases oe with _ | e
    · simpa [expandEntries, validUrls] using ih st
    · rcases he : entryUrlT e with _ | u
      · have hv : validUrls (some e :: rest) = validUrls rest := by
          simp [validUrls, he]
        simpa [expandEntries, he, hv] using ih st
      · have hv : validUrls (some e :: rest) = u :: validUrls rest := by
          simp [validUrls, he]
        rcases hrec : expandEntries g rest
            { st with
              titleCache := aupdate st.titleCache u
                ⟨e.title.getD "Unknown", e.duration.getD 0, some u⟩,
              queues := aupdate st.queues g (getQueue st g ++ [u]) }
          with ⟨st2, ps⟩
        have := ih { st with
              titleCache := aupdate st.titleCache u
                ⟨e.title.getD "Unknown", e.duration.getD 0, some u⟩,
              queues := aupdate st.queues g (getQueue st g ++ [u]) }
        rw [hrec] at this
        simp only [expandEntries, he, hrec, hv]
        simp only [this]
        simp [getQueue, alookup_aupdate_self]

theorem expandEntries_preloads (g : Nat) (es : List (Option PEntry))
    (st : CogState) :
    (expandEntries g es st).2
      = (validUrls es).take (3 - (getQueue st g).length) := by
  induction es generalizing st with
  | nil => simp [expandEntries, validUrls]
  | cons oe rest ih =>
    rcases oe with _ | e
    · simpa [expandEntries, validUrls] using ih st
    · rcases he : entryUrlT e with _ | u
      · have hv : validUrls (some e :: rest) = validUrls rest := by
          simp [validUrls, he]
        simpa [expandEntries, he, hv] using ih st
      · have hv : validUrls (some e :: rest) = u :: validUrls rest := by
          simp [validUrls, he]
        rcases hrec : expandEntries g rest
            { st with
              titleCache := aupdate st.titleCache u
                ⟨e.title.getD "Unknown", e.duration.getD 0, some u⟩,
              queues := aupdate st.queues g (getQueue st g ++ [u]) }
          with ⟨st2, ps⟩
        have hps := ih { st with
              titleCache := aupdate st.titleCache u
                ⟨e.title.getD "Unknown", e.duration.getD 0, some u⟩,
              queues := aupdate st.queues g (getQueue st g ++ [u]) }
        rw [hrec] at hps
        simp only [expandEntries, he, hrec, hv]
        have hq1 : getQueue
            { st with
              titleCache := aupdate st.titleCache u
                ⟨e.title.getD "Unknown", e.duration.getD 0, some u⟩,
              queues := aupdate st.queues g (getQueue st g ++ [u]) } g
            = getQueue st g ++ [u] := by
          simp [getQueue, alookup_aupdate_self]
        simp only at hps
        have hlen : (getQueue st g ++ [u]).length
            = (getQueue st g).length + 1 := by simp
        rw [hq1, hlen] at hps
        rw [hq1, hlen, hps]
        generalize (getQueue st g).length = n
        by_cases hn : n + 1 ≤ 3
        · have h3 : 3 - n = (3 - (n + 1)) + 1 := by omega
          rw [h3, List.take_succ_cons]
          simp [hn]
        · have h1 : 3 - n = 0 := by omega
          have h2 : 3 - (n + 1) = 0 := by omega
          simp [h1, h2, hn]

theorem expandEntries_frame (g : Nat) (es : List (Option PEntry))
    (st : CogState) :
    (∀ g', g' ≠ g → getQueue (expandEntries g es st).1 g' = getQueue st g')
    ∧ (expandEntries g es st).1.pending = st.pending
    ∧ (expandEntries g es st).1.audioCache = st.audioCache := by
  induction es generalizing st with
  | nil => simp [expandEntries]
  | cons oe rest ih =>
    rcases oe with _ | e
    · simpa [expandEntries] using ih st
    · rcases he : entryUrlT e with _ | u
      · simpa [expandEntries, he] using ih st
      · rcases hrec : expandEntries g rest
            { st with
              titleCache := aupdate st.titleCache u
                ⟨e.title.getD "Unknown", e.duration.getD 0, some u⟩,
              queues := aupdate st.queues g (getQueue st g ++ [u]) }
          with ⟨st2, ps⟩
        have hih := ih { st with
              titleCache := aupdate st.titleCache u
                ⟨e.title.getD "Unknown", e.duration.getD 0, some u⟩,
              queues := aupdate st.queues g (getQueue st g ++ [u]) }
        rw [hrec] at hih
        simp only [expandEntries, he, hrec]
        refine ⟨?_, ?_, ?_⟩
        · intro g' hg'
          rw [hih.1 g' hg']
          simp [getQueue, alookup_aupdate_ne st.queues g g' _ (fun h => hg' h.symm)]
        · exact hih.2.1
        · exact hih.2.2

theorem expandEntries_title (g : Nat) (es : List (Option PEntry))
    (st : CogState) :
    (∀ u, (alookup st.titleCache u).isSome →
        (alookup (expandEntries g es st).1.titleCache u).isSome)
    ∧ (∀ u ∈ validUrls es,
        (alookup (expandEntries g es st).1.titleCache u).isSome) := by
  induction es generalizing st with
  | nil => simp [expandEntries, validUrls]
  | cons oe rest ih =>
    rcases oe with _ | e
    · simpa [expandEntries, validUrls] using ih st
    · rcases he : entryUrlT e with _ | u
      · have hv : validUrls (some e :: rest) = validUrls rest := by
          simp [validUrls, he]
        simpa [expandEntries, he, hv] using ih st
      · have hv : validUrls (some e :: rest) = u :: validUrls rest := by
          simp [validUrls, he]
        rcases hrec : expandEntries g rest
            { st with
              titleCache := aupdate st.titleCache u
                ⟨e.title.getD "Unknown", e.duration.getD 0, some u⟩,
              queues := aupdate st.queues g (getQueue st g ++ [u]) }
          with ⟨st2, ps⟩
        have hih := ih { st with
              titleCache := aupdate st.titleCache u
                ⟨e.title.getD "Unknown", e.duration.getD 0, some u⟩,
              queues := aupdate st.queues g (getQueue st g ++ [u]) }
        rw [hrec] at hih
        simp only [expandEntries, he, hrec, hv]
        constructor
        · intro w hw
          exact hih.1 w (alookup_aupdate_isSome st.titleCache u w _ hw)
        · intro w hw
          rcases List.mem_cons.mp hw with hw | hw
          · subst hw
            exact hih.1 w (by simp [alookup_aupdate_self])
          · exact hih.2 w hw

/-! Spec-level description of the drain pass, used to state the amended claim
C3: which references a pending playlist contributes and which error notices a
drain pass emits. -/

/-- The references one pending playlist query contributes to the queue:
every valid entry of its re-resolved entry list except the positionally
first one (`info['entries'][1:]`, musicnowerror.py:84). -/
def playlistUrls (resolve : String → Except String (Option PInfo))
    (p : String) : List Ref :=
  match resolve p with
  | .ok (some pinfo) =>
    match pinfo.entries with
    | some es => validUrls (es.drop 1)
    | none => []
  | _ => []

/-- All references a drain pass appends, in order. -/
def appendedSpec (resolve : String → Except String (Option PInfo)) :
    List String → List Ref
  | [] => []
  | p :: rest => playlistUrls resolve p ++ appendedSpec resolve rest

/-- The error notices a drain pass emits (one per raising playlist, in
order; later playlists keep being processed). -/
def errorsSpec (resolve : String → Except String (Option PInfo)) :
    List String → List String
  | [] => []
  | p :: rest =>
    match resolve p with
    | .error m => ("Error processing playlist: " ++ m) :: errorsSpec resolve rest
    | .ok _ => errorsSpec resolve rest

theorem drainPlaylists_spec (resolve : String → Except String (Option PInfo))
    (g : Nat) (pls : List String) (st : CogState) :
    getQueue (drainPlaylists resolve g pls st).1 g
        = getQueue st g ++ appendedSpec resolve pls
    ∧ (drainPlaylists resolve g pls st).2.1
        = (appendedSpec resolve pls).take (3 - (getQueue st g).length)
    ∧ (drainPlaylists resolve g pls st).2.2 = errorsSpec resolve pls
    ∧ (∀ g', g' ≠ g →
        getQueue (drainPlaylists resolve g pls st).1 g' = getQueue st g')
    ∧ (drainPlaylists resolve g pls st).1.pending = st.pending
    ∧ (drainPlaylists resolve g pls st).1.audioCache = st.audioCache
    ∧ (∀ u, (alookup st.titleCache u).isSome →
        (alookup (drainPlaylists resolve g pls st).1.titleCache u).isSome)
    ∧ (∀ u ∈ appendedSpec resolve pls,
        (alookup (drainPlaylists resolve g pls st).1.titleCache u).isSome) := by
  induction pls generalizing st with
  | nil => simp [drainPlaylists, appendedSpec, errorsSpec]
  | cons p rest ih =>
    rcases hres : resolve p with msg | opinfo
    · rcases hrec : drainPlaylists resolve g rest st with ⟨st', ps, es⟩
      have hih := ih st
      rw [hrec] at hih
      simp only [drainPlaylists, hres, hrec, appendedSpec, errorsSpec,
        playlistUrls]
      simpa [playlistUrls, hres] using hih
    · rcases opinfo with _ | pinfo
      · have hih := ih st
        simp only [drainPlaylists, hres, appendedSpec, errorsSpec,
          playlistUrls]
        simpa [playlistUrls, hres] using hih
      · rcases hent : pinfo.entries with _ | es
        · have hih := ih st
          simp only [drainPlaylists, hres, hent, appendedSpec, errorsSpec,
            playlistUrls]
          simpa [playlistUrls, hres, hent] using hih
        · rcases hexp : expandEntries g (es.drop 1) st with ⟨st1, ps1⟩
          rcases hrec : drainPlaylists resolve g rest st1 with ⟨st2, ps2, ers⟩
          have hq1 : getQueue st1 g = getQueue st g ++ validUrls (es.drop 1) := by
            have := expandEntries_queue g (es.drop 1) st
            rw [hexp] at this
            exact this
          have hps1 : ps1 = (validUrls (es.drop 1)).take
              (3 - (getQueue st g).length) := by
            have := expandEntries_preloads g (es.drop 1) st
            rw [hexp] at this
            exact this
          have hfr1 := expandEntries_frame g (es.drop 1) st
          rw [hexp] at hfr1
          have hti1 := expandEntries_title g (es.drop 1) st
          rw [hexp] at hti1
          have hih := ih st1
          rw [hrec] at hih
          have hplu : playlistUrls resolve p = validUrls (es.drop 1) := by
            simp [playlistUrls, hres, hent]
          simp only at hih hfr1 hti1
          simp only [drainPlaylists, hres, hent, hexp, hrec, appendedSpec,
            errorsSpec, hplu]
          refine ⟨?_, ?_, ?_, ?_, ?_, ?_, ?_, ?_⟩
          · rw [hih.1, hq1, List.append_assoc]
          · rw [hps1, hih.2.1, hq1]
            rw [List.take_append_eq_append_take]
            have harith : ∀ k : Nat,
                3 - ((getQueue st g).length + k) = (3 - (getQueue st g).length) - k := by
              intro k
              omega
            simp [harith]
          · exact hih.2.2.1
          · intro g' hg'
            rw [hih.2.2.2.1 g' hg', hfr1.1 g' hg']
          · rw [hih.2.2.2.2.1, hfr1.2.1]
          · rw [hih.2.2.2.2.2.1, hfr1.2.2]
          · intro u hu
            exact hih.2.2.2.2.2.2.1 u (hti1.1 u hu)
          · intro u hu
            rcases List.mem_append.mp hu with hu | hu
            · exact hih.2.2.2.2.2.2.1 u (hti1.2 u hu)
            · exact hih.2.2.2.2.2.2.2 u hu

/-- Concrete 5-entry playlist used to exercise the expansion path: every
entry is valid, with references "a" … "e". -/
def cexEntry (u t : String) : Option PEntry :=
  some ⟨some u, none, some t, some 1⟩

/-- Expansion-time resolver for the concrete playlist query "pl". -/
def cexResolve : String → Except String (Option PInfo) := fun p =>
  if p = "pl" then
    .ok (some ⟨some [cexEntry "a" "A", cexEntry "b" "B", cexEntry "c" "C",
      cexEntry "d" "D", cexEntry "e" "E"]⟩)
  else .ok none

/-- State after `play` eagerly enqueued the first entry "a" of playlist "pl"
for guild 1 and registered "pl" as pending. -/
def cexSt : CogState :=
  ⟨[(1, ["a"])], [("a", ⟨"A", 1, some "a"⟩)], [], [(1, ["pl"])]⟩

/-- Counterexample to C3: draining the pending playlist appends the four
remaining entries "b","c","d","e", but schedules preloading only for "b" and
"c" (the appends that keep the total queue length ≤ 3) — not for the first 3
newly appended entries ("b","c","d") as the claim states. -/
theorem playlist_preload_counterexample :
    getQueue (processPendingPlaylists cexResolve 1 cexSt).1 1
        = ["a", "b", "c", "d", "e"]
    ∧ (processPendingPlaylists cexResolve 1 cexSt).2.1 = ["b", "c"]
    ∧ (processPendingPlaylists cexResolve 1 cexSt).2.1
        ≠ (["b", "c", "d", "e"].take 3) := by
  refine ⟨by decide, by decide, by decide⟩

theorem playPlaylistEager_queue (g : Nat) (query : String)
    (entries : List (Option PEntry)) (st : CogState) :
    getQueue (playPlaylistEager g query entries st).1 g
      = getQueue st g ++ ((firstValidEntry entries).bind entryUrlT).toList := by
  by_cases hpe : alookup st.pending g = none
  · by_cases hne : entries = []
    · subst hne
      simp [playPlaylistEager, hpe, firstValidEntry, getQueue]
    · rcases hfv : firstValidEntry entries with _ | e
      · simp [playPlaylistEager, hpe, hne, hfv, getQueue]
      · rcases hu : entryUrlT e with _ | u
        · simp [playPlaylistEager, hpe, hne, hfv, hu, getQueue]
        · simp [playPlaylistEager, hpe, hne, hfv, hu, getQueue,
            alookup_aupdate_self]
  · by_cases hne : entries = []
    · subst hne
      simp [playPlaylistEager, hpe, firstValidEntry, getQueue]
    · rcases hfv : firstValidEntry entries with _ | e
      · simp [playPlaylistEager, hpe, hne, hfv, getQueue]
      · rcases hu : entryUrlT e with _ | u
        · simp [playPlaylistEager, hpe, hne, hfv, hu, getQueue]
        · simp [playPlaylistEager, hpe, hne, hfv, hu, getQueue,
            alookup_aupdate_self]

theorem playPlaylistEager_pending (g : Nat) (query : String)
    (entries : List (Option PEntry)) (st : CogState) :
    alookup (playPlaylistEager g query entries st).1.pending g
      = some ((alookup st.pending g).getD [] ++ [query]) := by
  by_cases hpe : alookup st.pending g = none
  · by_cases hne : entries = []
    · subst hne
      simp [playPlaylistEager, hpe, alookup_aupdate_self]
    · rcases hfv : firstValidEntry entries with _ | e
      · simp [playPlaylistEager, hpe, hne, hfv, alookup_aupdate_self]
      · rcases hu : entryUrlT e with _ | u
        · simp [playPlaylistEager, hpe, hne, hfv, hu, alookup_aupdate_self]
        · simp [playPlaylistEager, hpe, hne, hfv, hu, alookup_aupdate_self]
  · by_cases hne : entries = []
    · subst hne
      simp [playPlaylistEager, hpe, alookup_aupdate_self]
    · rcases hfv : firstValidEntry entries with _ | e
      · simp [playPlaylistEager, hpe, hne, hfv, alookup_aupdate_self]
      · rcases hu : entryUrlT e with _ | u
        · simp [playPlaylistEager, hpe, hne, hfv, hu, alookup_aupdate_self]
        · simp [playPlaylistEager, hpe, hne, hfv, hu, alookup_aupdate_self]

/-- C3 (amended): `play` synchronously appends only the first resolvable
entry of the play-time resolution (and registers the query as pending); the
drain pass appends, for each pending playlist, every valid entry of the
re-resolved list except the positionally first one, caches each appended
entry's metadata, schedules preloading exactly for the newly appended
entries whose append keeps the total queue length at most 3 (the first
`3 - L` of them, `L` the queue length at expansion start), clears the
guild's pending list afterwards, and an error on one pending playlist does
not abort the remaining ones (the appended references and the error notices
of all playlists are both fully accounted for, whatever the resolver does). -/
theorem playlist_expansion_amended
    (resolve : String → Except String (Option PInfo)) (g : Nat)
    (query : String) (entries : List (Option PEntry)) (st st' : CogState)
    (pls : List String) (hp : alookup st'.pending g = some pls) :
    (getQueue (playPlaylistEager g query entries st).1 g
        = getQueue st g ++ ((firstValidEntry entries).bind entryUrlT).toList)
    ∧ (alookup (playPlaylistEager g query entries st).1.pending g
        = some ((alookup st.pending g).getD [] ++ [query]))
    ∧ (getQueue (processPendingPlaylists resolve g st').1 g
        = getQueue st' g ++ appendedSpec resolve pls)
    ∧ ((processPendingPlaylists resolve g st').2.1
        = (appendedSpec resolve pls).take (3 - (getQueue st' g).length))
    ∧ ((processPendingPlaylists resolve g st').2.2 = errorsSpec resolve pls)
    ∧ (alookup (processPendingPlaylists resolve g st').1.pending g = some [])
    ∧ (∀ u ∈ appendedSpec resolve pls,
        (alookup (processPendingPlaylists resolve g st').1.titleCache u).isSome) := by
  have hdrain := drainPlaylists_spec resolve g pls st'
  rcases hdr : drainPlaylists resolve g pls st' with ⟨std, ps, es⟩
  rw [hdr] at hdrain
  simp only at hdrain
  have hproc : processPendingPlaylists resolve g st'
      = ({ std with pending := aupdate std.pending g [] }, ps, es) := by
    simp [processPendingPlaylists, hp, hdr]
  refine ⟨playPlaylistEager_queue g query entries st,
    playPlaylistEager_pending g query entries st, ?_, ?_, ?_, ?_, ?_⟩
  · rw [hproc]
    exact hdrain.1
  · rw [hproc]
    exact hdrain.2.1
  · rw [hproc]
    exact hdrain.2.2.1
  · rw [hproc]
    simp [alookup_aupdate_self]
  · intro u hu
    rw [hproc]
    exact hdrain.2.2.2.2.2.2.2 u hu

/-- Witness for the amended C3 at the concrete playlist scenario. -/
theorem playlist_expansion_amended_witness :
    getQueue (processPendingPlaylists cexResolve 1 cexSt).1 1
        = ["a"] ++ appendedSpec cexResolve ["pl"]
    ∧ (processPendingPlaylists cexResolve 1 cexSt).2.1
        = (appendedSpec cexResolve ["pl"]).take 2 :=
  have h := playlist_expansion_amended cexResolve 1 "pl" [] cexSt cexSt
    ["pl"] (by decide)
  ⟨h.2.2.1, h.2.2.2.1⟩

/-! ## Guild keying of the four maps (claim C2)

`queues` and `pending_playlists` are keyed by guild id, but `title_cache`
and `audio_cache` are keyed by the track reference alone
(musicnowerror.py:58-61, 87, 232, 259): no cache access takes a guild key. -/

/-- Counterexample to C2: a title-cache entry written while serving guild 1
(expansion of an entry with reference "u") is overwritten by a later
expansion serving guild 2 with the same reference — the caches are keyed by
reference only, not first by guild — while guild 1's queue itself stays
untouched by guild 2's expansion. -/
theorem guild_cache_counterexample :
    alookup (expandEntries 1 [some ⟨some "u", none, some "One", some 1⟩]
        ⟨[], [], [], []⟩).1.titleCache "u" = some ⟨"One", 1, some "u"⟩
    ∧ alookup (expandEntries 2 [some ⟨some "u", none, some "Two", some 2⟩]
        (expandEntries 1 [some ⟨some "u", none, some "One", some 1⟩]
          ⟨[], [], [], []⟩).1).1.titleCache "u" = some ⟨"Two", 2, some "u"⟩
    ∧ getQueue (expandEntries 2 [some ⟨some "u", none, some "Two", some 2⟩]
        (expandEntries 1 [some ⟨some "u", none, some "One", some 1⟩]
          ⟨[], [], [], []⟩).1).1 1 = ["u"] := by
  refine ⟨by decide, by decide, by decide⟩

theorem expandEntries_titleCache_congr (g g' : Nat)
    (es : List (Option PEntry)) :
    ∀ st st' : CogState, st.titleCache = st'.titleCache →
      (expandEntries g es st).1.titleCache
        = (expandEntries g' es st').1.titleCache := by
  induction es with
  | nil =>
    intro st st' h
    simpa [expandEntries] using h
  | cons oe rest ih =>
    intro st st' h
    rcases oe with _ | e
    · simpa [expandEntries] using ih st st' h
    · rcases he : entryUrlT e with _ | u
      · simpa [expandEntries, he] using ih st st' h
      · rcases hr1 : expandEntries g rest
            { st with
              titleCache := aupdate st.titleCache u
                ⟨e.title.getD "Unknown", e.duration.getD 0, some u⟩,
              queues := aupdate st.queues g (getQueue st g ++ [u]) }
          with ⟨st2, ps⟩
        rcases hr2 : expandEntries g' rest
            { st' with
              titleCache := aupdate st'.titleCache u
                ⟨e.title.getD "Unknown", e.duration.getD 0, some u⟩,
              queues := aupdate st'.queues g' (getQueue st' g' ++ [u]) }
          with ⟨st2', ps'⟩
        have := ih
          { st with
            titleCache := aupdate st.titleCache u
              ⟨e.title.getD "Unknown", e.duration.getD 0, some u⟩,
            queues := aupdate st.queues g (getQueue st g ++ [u]) }
          { st' with
            titleCache := aupdate st'.titleCache u
              ⟨e.title.getD "Unknown", e.duration.getD 0, some u⟩,
            queues := aupdate st'.queues g' (getQueue st' g' ++ [u]) }
          (by simp [h])
        rw [hr1, hr2] at this
        simp only [expandEntries, he, hr1, hr2]
        exact this

/-- C2 (amended): the queue map and the pending-playlist map are keyed by
guild identity — operations serving one guild never change another guild's
queue or pending record — but the title cache (and likewise the audio
cache) is keyed by the track reference alone and shared across guilds: the
title-cache effect of an expansion is entirely independent of the serving
guild, so an entry written while serving one guild is visible to, and can
be overwritten by, operations serving another guild. -/
theorem guild_keying_amended :
    (∀ (st : CogState) (g g' : Nat) (u : Ref), g ≠ g' →
        getQueue (appendTrack st g u) g' = getQueue st g')
    ∧ (∀ (resolve : String → Except String (Option PInfo)) (g g' : Nat)
          (st : CogState), g' ≠ g →
        getQueue (processPendingPlaylists resolve g st).1 g' = getQueue st g'
        ∧ alookup (processPendingPlaylists resolve g st).1.pending g'
            = alookup st.pending g')
    ∧ (∀ (g g' : Nat) (es : List (Option PEntry)) (st st' : CogState),
        st.titleCache = st'.titleCache →
        (expandEntries g es st).1.titleCache
          = (expandEntries g' es st').1.titleCache) := by
  refine ⟨?_, ?_, ?_⟩
  · intro st g g' u h
    exact getQueue_appendTrack_ne st g g' u h
  · intro resolve g g' st h
    rcases hp : alookup st.pending g with _ | pls
    · constructor <;> simp [processPendingPlaylists, hp]
    · have hdrain := drainPlaylists_spec resolve g pls st
      rcases hdr : drainPlaylists resolve g pls st with ⟨std, ps, es⟩
      rw [hdr] at hdrain
      simp only at hdrain
      have hproc : processPendingPlaylists resolve g st
          = ({ std with pending := aupdate std.pending g [] }, ps, es) := by
        simp [processPendingPlaylists, hp, hdr]
      constructor
      · rw [hproc]
        exact hdrain.2.2.2.1 g' h
      · rw [hproc]
        simp only
        rw [alookup_aupdate_ne std.pending g g' [] (fun he => h he.symm),
          hdrain.2.2.2.2.1]
  · intro g g' es st st' h
    exact expandEntries_titleCache_congr g g' es st st' h

/-- Witness for the amended C2 at concrete guilds 1 ≠ 2. -/
theorem guild_keying_amended_witness :
    getQueue (appendTrack ⟨[], [], [], []⟩ 1 "u") 2 = []
    ∧ getQueue (processPendingPlaylists cexResolve 1 cexSt).1 2 = []
    ∧ (expandEntries 1 [some ⟨some "u", none, some "T", some 1⟩]
          (⟨[], [], [], []⟩ : CogState)).1.titleCache
        = (expandEntries 2 [some ⟨some "u", none, some "T", some 1⟩]
          (⟨[(9, ["x"])], [], [], []⟩ : CogState)).1.titleCache :=
  ⟨guild_keying_amended.1 ⟨[], [], [], []⟩ 1 2 "u" (by decide),
   by
    have h := (guild_keying_amended.2.1 cexResolve 1 2 cexSt (by decide)).1
    rw [h]
    decide,
   guild_keying_amended.2.2 1 2 [some ⟨some "u", none, some "T", some 1⟩]
     ⟨[], [], [], []⟩ ⟨[(9, ["x"])], [], [], []⟩ (by decide)⟩

/-! ## Error classification in `play` (musicnowerror.py:423-470; the older
variant musicold.py:313-361 has the identical chain)

On a resolver exception, `error_msg = str(e).lower()` is matched against a
fixed ordered chain of substrings; the first match determines the
user-facing reply.  A DRM match triggers the alternative-source fallback;
any unmatched error surfaces the raw message. -/

/-- The user-facing outcome of the `except` branch of `play`. -/
inductive ErrReply where
  | drmFallback
  | unavailable
  | ageRestricted
  | unsupportedUrl
  | geoRestricted
  | network
  | raw (msg : String)
deriving DecidableEq

/-- The classification chain of `play` (musicnowerror.py:424-470), translated
condition by condition from the `if`/`elif` cascade on `str(e).lower()`. -/
def classifyPlayError (errText : String) : ErrReply :=
  if listContains (pyLower errText) "[drm]".data
      || listContains (pyLower errText) "drm protection".data then
    .drmFallback
  else if listContains (pyLower errText) "video unavailable".data then
    .unavailable
  else if listContains (pyLower errText) "sign in to confirm your age".data then
    .ageRestricted
  else if listContains (pyLower errText) "not a supported url".data then
    .unsupportedUrl
  else if listContains (pyLower errText) "geo restriction".data then
    .geoRestricted
  else if listContains (pyLower errText) "network error".data
      || listContains (pyLower errText) "connection error".data then
    .network
  else .raw errText

/-- The spec-side description: a fixed ordered table of
(substring set, classified reply) pairs, matched first-match-wins against
the lowercased raw error text; no match surfaces the raw message. -/
def errorTable : List (List String × ErrReply) :=
  [(["[drm]", "drm protection"], .drmFallback),
   (["video unavailable"], .unavailable),
   (["sign in to confirm your age"], .ageRestricted),
   (["not a supported url"], .unsupportedUrl),
   (["geo restriction"], .geoRestricted),
   (["network error", "connection error"], .network)]

/-- First-match-wins classification over `errorTable`. -/
def classifySpec (errText : String) : ErrReply :=
  match errorTable.find?
      (fun sr => sr.1.any (fun s => listContains (pyLower errText) s.data)) with
  | some sr => sr.2
  | none => .raw errText

/-- C6: the reply selection of `play` on a resolver error is exactly
first-match-wins lookup of the lowercased raw error text in the fixed
ordered substring table: DRM (`"[drm]"` or `"drm protection"`) triggers the
alternative-source fallback, the five specific substrings yield their
classified replies, and any other error surfaces the raw message. -/
theorem error_classification (msg : String) :
    classifyPlayError msg = classifySpec msg := by
  unfold classifyPlayError classifySpec errorTable
  cases h1 : listContains (pyLower msg) "[drm]".data <;>
    cases h2 : listContains (pyLower msg) "drm protection".data <;>
      cases h3 : listContains (pyLower msg) "video unavailable".data <;>
        cases h4 : listContains (pyLower msg) "sign in to confirm your age".data <;>
          cases h5 : listContains (pyLower msg) "not a supported url".data <;>
            cases h6 : listContains (pyLower msg) "geo restriction".data <;>
              cases h7 : listContains (pyLower msg) "network error".data <;>
                cases h8 : listContains (pyLower msg) "connection error".data <;>
                  simp [h1, h2, h3, h4, h5, h6, h7, h8, List.find?, List.any]

/-! ## Show-queue rendering (`queue` command, musicnowerror.py:682-708)

Only the "Up Next" segment of the embed is modelled: the enumeration of
`queue[:10]` with 1-based indices, and the "And more..." overflow field
added when the queue holds more than 10 references. -/

/-- Python `f"{seconds:02d}"`. -/
def pad2 (n : Nat) : String :=
  if n < 10 then "0" ++ toString n else toString n

/-- Python `f" ({duration//60}:{duration%60:02d})" if duration else ""`. -/
def durationStr (d : Nat) : String :=
  if d ≠ 0 then " (" ++ toString (d / 60) ++ ":" ++ pad2 (d % 60) ++ ")" else ""

/-- One rendered queue line ``f"`{i}.` {title}{duration_str}"`` with
`title_cache.get(url, {})` defaults (musicnowerror.py:685-691). -/
def renderQueueLine (tc : List (Ref × TMeta)) (i : Nat) (u : Ref) : String :=
  match alookup tc u with
  | some m => "`" ++ toString i ++ ".` " ++ m.title ++ durationStr m.duration
  | none => "`" ++ toString i ++ ".` " ++ "Loading..." ++ durationStr 0

/-- Model of `enumerate(queue[:10], 1)` applied to the renderer. -/
def numberLines (tc : List (Ref × TMeta)) : Nat → List Ref → List String
  | _, [] => []
  | i, u :: rest => renderQueueLine tc i u :: numberLines tc (i + 1) rest

/-- The "Up Next" / "And more..." fields of the queue embed
(musicnowerror.py:682-714), as (name, value) pairs in insertion order. -/
def queueFields (q : List Ref) (tc : List (Ref × TMeta)) :
    List (String × String) :=
  if q ≠ [] then
    (if numberLines tc 1 (q.take 10) ≠ [] then
      [("Up Next", String.intercalate "\n" (numberLines tc 1 (q.take 10)))]
    else [])
    ++ (if q.length > 10 then
      [("And more...",
        "*" ++ toString (q.length - 10) ++ " more songs in queue*")]
    else [])
  else [("Up Next", "*No songs in queue*")]

theorem numberLines_eq_zip (tc : List (Ref × TMeta)) (l : List Ref) :
    ∀ i, numberLines tc i l
      = ((List.range' i l.length).zip l).map
          (fun p => renderQueueLine tc p.1 p.2) := by
  induction l with
  | nil => intro i; simp [numberLines]
  | cons u rest ih =>
    intro i
    simp [numberLines, List.range'_succ, ih (i + 1)]

theorem numberLines_length (tc : List (Ref × TMeta)) (l : List Ref) (i : Nat) :
    (numberLines tc i l).length = l.length := by
  rw [numberLines_eq_zip]
  simp

/-- C7: a queue of 12 references renders exactly the first 10 references,
enumerated 1..10 in queue order, in the "Up Next" field, plus one extra
"And more..." field whose text states "2 more songs in queue"; a queue of at
most 10 references produces no such extra field (every emitted field is
"Up Next"). -/
theorem queue_rendering (q : List Ref) (tc : List (Ref × TMeta)) :
    (q.length = 12 →
      queueFields q tc
        = [("Up Next", String.intercalate "\n"
              (((List.range' 1 10).zip (q.take 10)).map
                (fun p => renderQueueLine tc p.1 p.2))),
           ("And more...", "*2 more songs in queue*")])
    ∧ (q.length ≤ 10 → ∀ f ∈ queueFields q tc, f.1 = "Up Next") := by
  constructor
  · intro h12
    have hne : q ≠ [] := by
      intro h
      rw [h] at h12
      simp at h12
    have htake : (q.take 10).length = 10 := by
      simp [h12]
    have hlines : numberLines tc 1 (q.take 10) ≠ [] := by
      intro h
      have := numberLines_length tc (q.take 10) 1
      rw [h, htake] at this
      simp at this
    have hlen : q.length > 10 := by omega
    have hsub : q.length - 10 = 2 := by omega
    rw [queueFields, if_pos hne, if_pos hlines, if_pos hlen, hsub,
      numberLines_eq_zip tc (q.take 10) 1, htake]
    simp
    rfl
  · intro hle f hf
    by_cases hne : q = []
    · subst hne
      simp [queueFields] at hf
      simp [hf]
    · have hnot : ¬ q.length > 10 := by omega
      rw [queueFields, if_pos hne, if_neg hnot] at hf
      by_cases hl : numberLines tc 1 (q.take 10) ≠ []
      · rw [if_pos hl] at hf
        simp at hf
        simp [hf]
      · rw [if_neg hl] at hf
        simp at hf

/-- Witness for C7 at a concrete 12-element queue. -/
theorem queue_rendering_witness :
    queueFields ["u1", "u2", "u3", "u4", "u5", "u6", "u7", "u8", "u9", "u10",
        "u11", "u12"] []
      = [("Up Next", String.intercalate "\n"
            (((List.range' 1 10).zip
              ((["u1", "u2", "u3", "u4", "u5", "u6", "u7", "u8", "u9", "u10",
                "u11", "u12"] : List Ref).take 10)).map
              (fun p => renderQueueLine [] p.1 p.2))),
         ("And more...", "*2 more songs in queue*")] :=
  (queue_rendering ["u1", "u2", "u3", "u4", "u5", "u6", "u7", "u8", "u9",
      "u10", "u11", "u12"] []).1 (by decide)

/-! ## Query normalization in `play` (musicnowerror.py:386-410; identical in
musicold.py:282-306)

`play` decides between the streaming-service fallback path, a free-text
search rewrite, a shortened-video-link rewrite, and leaving the query
untouched, before handing the query to the resolver. -/

theorem isPrefixOf_self_append (n rest : List Char) :
    n.isPrefixOf (n ++ rest) = true := by
  rw [ List.isPrefixOf_iff_prefix]
  exact List.prefix_append n rest

theorem isPrefixOf_append_right {n a : List Char} (b : List Char)
    (h : n.isPrefixOf a = true) : n.isPrefixOf (a ++ b) = true := by
  rw [ List.isPrefixOf_iff_prefix] at h ⊢
  exact h.trans (List.prefix_append a b)

theorem listContains_append_left (a b n : List Char)
    (h : listContains a n = true) : listContains (a ++ b) n = true := by
  induction a with
  | nil =>
    have h' : n.isPrefixOf ([] : List Char) = true := by
      simpa [listContains] using h
    have hn : n = [] := by
      rw [ List.isPrefixOf_iff_prefix] at h'
      exact List.prefix_nil.mp h'
    subst hn
    cases b with
    | nil => exact h
    | cons x t =>
      show (List.isPrefixOf [] (x :: t) || listContains t []) = true
      simp [List.isPrefixOf]
  | cons x a' ih =>
    have h' : (n.isPrefixOf (x :: a') || listContains a' n) = true := h
    show (n.isPrefixOf (x :: (a' ++ b)) || listContains (a' ++ b) n) = true
    rcases Bool.or_eq_true_iff.mp h' with hp | hr
    · have : n.isPrefixOf ((x :: a') ++ b) = true :=
        isPrefixOf_append_right b hp
      rw [List.cons_append] at this
      simp [this]
    · simp [ih hr]

theorem pySplit_not_mem (sep : Char) (xs : List Char) (h : sep ∉ xs) :
    pySplit sep xs = [xs] := by
  induction xs with
  | nil => simp [pySplit]
  | cons c rest ih =>
    have hc : c ≠ sep := fun hc => h (hc ▸ List.mem_cons_self c rest)
    have hrest : sep ∉ rest := fun hm => h (List.mem_cons_of_mem c hm)
    simp [pySplit, hc, ih hrest]

theorem pySplit_append (sep : Char) (xs ys : List Char) (h : sep ∉ xs) :
    pySplit sep (xs ++ sep :: ys) = xs :: pySplit sep ys := by
  induction xs with
  | nil => simp [pySplit]
  | cons c rest ih =>
    have hc : c ≠ sep := fun hc => h (hc ▸ List.mem_cons_self c rest)
    have hrest : sep ∉ rest := fun hm => h (List.mem_cons_of_mem c hm)
    simp [pySplit, hc, ih hrest]

/-- The query rewriting outcome of `play`: either enter the
streaming-service (Spotify / Apple Music) fallback path, or invoke the
resolver on the (possibly rewritten) query. -/
inductive PlayQuery where
  | streamingFallback (q : String)
  | resolveNow (q : String)
deriving DecidableEq

/-- Python `query.startswith(p)`. -/
def pyStartsWith (q p : String) : Bool := p.data.isPrefixOf q.data

/-- Model of `query.split('/')[-1].split('?')[0]` (musicnowerror.py:409). -/
def shortLinkVideoId (q : String) : String :=
  String.mk ((pySplit '?' ((pySplit '/' q.data).getLastD [])).headD [])

/-- The query dispatch of `play` (musicnowerror.py:386-410): the
streaming-service test, the free-text `ytsearch:` rewrite, and the
`youtu.be` short-link rewrite, in source order. -/
def preprocessQuery (q : String) : PlayQuery :=
  if listContains (pyLower q) "spotify.com".data
      || listContains (pyLower q) "music.apple.com".data then
    .streamingFallback q
  else if ¬ (pyStartsWith q "http://" || pyStartsWith q "https://") then
    .resolveNow ("ytsearch:" ++ q)
  else if listContains q.data "youtu.be".data then
    .resolveNow ("https://www.youtube.com/watch?v=" ++ shortLinkVideoId q)
  else .resolveNow q

/-- C8: every query of the form `https://youtu.be/<id>` with optional query
parameters (and which is not a streaming-service link) is rewritten to the
canonical `https://www.youtube.com/watch?v=<id>` before the resolver is
invoked. -/
theorem youtube_shortlink_normalized (id : List Char) (ps : String)
    (hid1 : '/' ∉ id) (hid2 : '?' ∉ id)
    (hps : ps = "" ∨ ∃ qs : String, ps = "?" ++ qs ∧ '/' ∉ qs.data)
    (h1 : listContains (pyLower ("https://youtu.be/" ++ String.mk id ++ ps))
        "spotify.com".data = false)
    (h2 : listContains (pyLower ("https://youtu.be/" ++ String.mk id ++ ps))
        "music.apple.com".data = false) :
    preprocessQuery ("https://youtu.be/" ++ String.mk id ++ ps)
      = .resolveNow ("https://www.youtube.com/watch?v=" ++ String.mk id) := by
  have hdata : ("https://youtu.be/" ++ String.mk id ++ ps).data
      = "https://youtu.be/".data ++ (id ++ ps.data) := by
    have h0 : ("https://youtu.be/" ++ String.mk id ++ ps).data
        = ("https://youtu.be/".data ++ id) ++ ps.data := rfl
    rw [h0, List.append_assoc]
  have hurl : pyStartsWith ("https://youtu.be/" ++ String.mk id ++ ps)
      "https://" = true := by
    unfold pyStartsWith
    rw [hdata]
    have hshape : "https://youtu.be/".data ++ (id ++ ps.data)
        = "https://".data ++ ("youtu.be/".data ++ (id ++ ps.data)) := by
      rw [← List.append_assoc]
      rfl
    rw [hshape]
    exact isPrefixOf_self_append _ _
  have hcont : listContains ("https://youtu.be/" ++ String.mk id ++ ps).data
      "youtu.be".data = true := by
    rw [hdata]
    exact listContains_append_left _ _ _ (by decide)
  have hshape2 : "https://youtu.be/".data ++ (id ++ ps.data)
      = "https:".data ++ '/' :: (([] : List Char)
          ++ '/' :: ("youtu.be".data ++ '/' :: (id ++ ps.data))) := by
    rfl
  have htail : pySplit '/' (id ++ ps.data) = [id ++ ps.data] := by
    rcases hps with hps | ⟨qs, hps, hqs⟩
    · subst hps
      apply pySplit_not_mem
      simpa using hid1
    · subst hps
      apply pySplit_not_mem
      intro hm
      rcases List.mem_append.mp hm with hm | hm
      · exact hid1 hm
      · have : ('/' : Char) = '?' ∨ '/' ∈ qs.data := by
          simpa using hm
        rcases this with h | h
        · exact absurd h (by decide)
        · exact hqs h
  have hsplit : pySplit '/' ("https://youtu.be/" ++ String.mk id ++ ps).data
      = ["https:".data, [], "youtu.be".data, id ++ ps.data] := by
    rw [hdata, hshape2]
    rw [pySplit_append '/' "https:".data _ (by decide)]
    rw [pySplit_append '/' [] _ (by decide)]
    rw [pySplit_append '/' "youtu.be".data _ (by decide)]
    rw [htail]
  have hshort : shortLinkVideoId ("https://youtu.be/" ++ String.mk id ++ ps)
      = String.mk id := by
    unfold shortLinkVideoId
    rw [hsplit]
    have hlast : (["https:".data, [], "youtu.be".data,
        id ++ ps.data] : List (List Char)).getLastD [] = id ++ ps.data := by
      simp [List.getLastD]
    rw [hlast]
    rcases hps with hps | ⟨qs, hps, hqs⟩
    · subst hps
      rw [show (("" : String).data = ([] : List Char)) from rfl,
        List.append_nil, pySplit_not_mem '?' id hid2]
      rfl
    · subst hps
      rw [show (("?" ++ qs).data = '?' :: qs.data) from rfl,
        pySplit_append '?' id qs.data hid2]
      rfl
  rw [preprocessQuery, if_neg (by simp [h1, h2]),
    if_neg (by simp [hurl]), if_pos hcont, hshort]

/-- Witness for C8 at the spec's own example
`play("https://youtu.be/abc?x=1")`. -/
theorem youtube_shortlink_normalized_witness :
    preprocessQuery ("https://youtu.be/" ++ String.mk ['a', 'b', 'c'] ++ "?x=1")
      = .resolveNow ("https://www.youtube.com/watch?v="
          ++ String.mk ['a', 'b', 'c']) :=
  youtube_shortlink_normalized ['a', 'b', 'c'] "?x=1"
    (by decide) (by decide)
    (Or.inr ⟨"x=1", rfl, by decide⟩)
    (by decide) (by decide)

/-! ## Alternative-source search phrase selection
(`_try_alternative_source`, musicnowerror.py:155-171)

After `_extract_song_info` produced `search_query`, the code re-fetches the
Spotify track page and parses its `<title>` tag only under
`if not search_query or search_query == " - Adventure Time! audio"` and
`'spotify.com/track/' in query`.  The parsed page title (if the fetch
returned 200 and the regex matched) is the `pageTitle` parameter. -/

/-- The re-fetch gate and resulting search phrase: returns whether the
secondary Spotify-page fetch is performed and the phrase used afterwards. -/
def altPhraseStep (query searchQuery : String) (pageTitle : Option String) :
    Bool × String :=
  if searchQuery = "" ∨ searchQuery = " - Adventure Time! audio" then
    if listContains query.data "spotify.com/track/".data then
      (true,
        match pageTitle with
        | some t => t
        | none => searchQuery)
    else (false, searchQuery)
  else (false, searchQuery)

/-- C9: the secondary Spotify-page re-fetch is triggered exactly when the
extracted phrase is empty or equals the hard-coded literal
" - Adventure Time! audio" (and the query is a Spotify track URL); for every
other non-empty phrase the re-fetch is skipped and the phrase is used as-is;
when it is triggered and the page yields a title, that title becomes the
phrase. -/
theorem alt_source_refetch_gate (query sq : String) (pt : Option String) :
    ((altPhraseStep query sq pt).1 = true
      ↔ ((sq = "" ∨ sq = " - Adventure Time! audio")
          ∧ listContains query.data "spotify.com/track/".data = true))
    ∧ (sq ≠ "" → sq ≠ " - Adventure Time! audio" →
        (altPhraseStep query sq pt).1 = false
          ∧ (altPhraseStep query sq pt).2 = sq)
    ∧ ((sq = "" ∨ sq = " - Adventure Time! audio") →
        listContains query.data "spotify.com/track/".data = true →
        ∀ t, pt = some t → (altPhraseStep query sq pt).2 = t) := by
  by_cases hsq : sq = "" ∨ sq = " - Adventure Time! audio"
  · by_cases hsp : listContains query.data "spotify.com/track/".data = true
    · refine ⟨by simp [altPhraseStep, hsq, hsp], ?_, ?_⟩
      · intro h1 h2
        rcases hsq with h | h
        · exact absurd h h1
        · exact absurd h h2
      · intro _ _ t ht
        simp [altPhraseStep, hsq, hsp, ht]
    · have hsp' : listContains query.data "spotify.com/track/".data = false :=
        Bool.eq_false_iff.mpr hsp
      refine ⟨by simp [altPhraseStep, hsq, hsp'], ?_, ?_⟩
      · intro h1 h2
        rcases hsq with h | h
        · exact absurd h h1
        · exact absurd h h2
      · intro _ hc
        exact absurd hc hsp
  · refine ⟨by simp [altPhraseStep, hsq], ?_, ?_⟩
    · intro _ _
      simp [altPhraseStep, hsq]
    · intro hc
      exact absurd hc hsq

/-- Witness for C9: a non-empty, non-magic phrase skips the re-fetch and is
used as-is, even for a Spotify track query with an available page title. -/
theorem alt_source_refetch_gate_witness :
    (altPhraseStep "https://open.spotify.com/track/42" "Artist - Song audio"
        (some "Page Title")).1 = false
    ∧ (altPhraseStep "https://open.spotify.com/track/42" "Artist - Song audio"
        (some "Page Title")).2 = "Artist - Song audio" :=
  (alt_source_refetch_gate "https://open.spotify.com/track/42"
      "Artist - Song audio" (some "Page Title")).2.1
    (by decide) (by decide)

end MusikSiAlan
